import Mathlib

/-!
Shallow embedding of the simtrans conversion core (src/simtrans/vrml.py and
src/simtrans/collada.py) and proofs about it.

Coordinate entries of the numpy float arrays are modelled by `Int`: no claim
depends on floating-point values, only on array shapes and index contents.
-/

namespace Simtrans

/-- Modelled from the spec: the canonical model types live in `model.py`, which
is not under src/ (only its users are).  The spec describes a Material with
colour data; only the name matters to the claims. -/
structure MaterialModel where
  name : String
deriving DecidableEq, Repr

/-- Modelled from the spec: `model.LinkModel`.  The spec gives a Link a unique
name, mass, centre of mass and owned shapes; only the name is consumed by the
tree-reconstruction code the claims are about, so the numeric fields are
omitted. -/
structure LinkModel where
  name : String
deriving DecidableEq, Repr

/-- Modelled from the spec: `model.JointModel`.  A directed edge from a parent
link name to a child link name, with a joint-type tag.  The spec's kinematic
payload (axis, translation, rotation, limits) is never inspected by the
converted code, so it is omitted.  Fields a fresh `JointModel()` leaves unset
are modelled by the empty string. -/
structure JointModel where
  name : String := ""
  parent : String := ""
  child : String := ""
  jointType : String := ""
deriving DecidableEq, Repr

/-- Modelled from the spec: `model.JointModel.J_FIXED` (spec joint type Fixed). -/
def J_FIXED : String := "fixed"

/-- Modelled from the spec: `model.JointModel.J_REVOLUTE` (spec joint type Revolute). -/
def J_REVOLUTE : String := "revolute"

/-- Modelled from the spec: `model.JointModel.J_PRISMATIC` (spec joint type Prismatic). -/
def J_PRISMATIC : String := "prismatic"

/-- Modelled from the spec: `model.JointModel.J_SCREW` (spec joint type Screw). -/
def J_SCREW : String := "screw"

/-- Modelled from the spec: `model.BodyModel` — ordered links plus a flat joint
edge list. -/
structure BodyModel where
  name : String := ""
  links : List LinkModel := []
  joints : List JointModel := []
deriving DecidableEq, Repr

/-- Modelled from the spec: `model.MeshData`.  Arrays are rows of 3 entries as
produced by the `reshape(n, 3)` calls; fields a fresh `MeshData()` leaves unset
are `none`. -/
structure MeshData where
  vertex : List (List Int) := []
  vertex_index : List (List Nat) := []
  normal : Option (List (List Int)) := none
  normal_index : Option (List (List Nat)) := none
  uvmap : Option (List (List Int)) := none
  uvmap_index : Option (List (List Nat)) := none
  image : Option String := none
deriving DecidableEq, Repr

/-- `numpy.array(xs).reshape(len(xs)/3, 3)`: group a flat list into rows of 3.
(The reader only applies it to lists whose length is divisible by 3.) -/
def reshape3 {α : Type} : List α → List (List α)
  | a :: b :: c :: rest => [a, b, c] :: reshape3 rest
  | _ => []

/-- The index-synthesis loop of `VRMLReader.readLink` (vrml.py lines 111-115 and
127-131): `for i in range(0, len(normals)/3): idx.append(i); idx.append(i);
idx.append(i)`. -/
def synthPerVertexIdx (n : Nat) : List Nat :=
  (List.range n).flatMap (fun i => [i, i, i])

/-- The mesh-array construction of `VRMLReader.readLink` (vrml.py lines
103-132): vertex/triangle reshaping plus the four normal-index cases.
`triangles` is the flat `sdata.triangles`, `normals` the flat `adata.normals`,
`normalIndices` the flat `adata.normalIndices`. -/
def readLinkMesh (vertices : List Int) (triangles : List Nat)
    (normalPerVertex : Bool) (normals : List Int) (normalIndices : List Nat) :
    MeshData :=
  { vertex := reshape3 vertices
    vertex_index := reshape3 triangles
    normal := some (reshape3 normals)
    normal_index := some (reshape3 (
      if normalPerVertex then
        if normalIndices.length > 0 then
          normalIndices
        else
          synthPerVertexIdx (normals.length / 3)
      else
        if normalIndices.length > 0 then
          normalIndices.flatMap (fun i => [i, i, i])
        else
          synthPerVertexIdx (normals.length / 3))) }

/-! ### VRMLReader.read, extra joints (vrml.py lines 77-86)

The reader walks the loaded link tree collecting `self._joints`, then appends
one `JointModel` per extra (closed-loop) joint to that same list, and stores
the combined list in `bm.joints`. -/

/-- One entry of `BodyInfo.extraJoints`: `j.link` is a pair of link names. -/
structure ExtraJoint where
  name : String
  link0 : String
  link1 : String
deriving DecidableEq, Repr

/-- The `JointModel` built for an extra joint (vrml.py lines 79-84):
`m.parent = j.link[0]; m.child = j.link[1]; m.name = j.name`; `jointType` is
left at its fresh-object default. -/
def extraJointModel (e : ExtraJoint) : JointModel :=
  { name := e.name, parent := e.link0, child := e.link1, jointType := "" }

/-- The joint list stored into `bm.joints` by `VRMLReader.read`: the tree
joints collected by `readChild`, followed by the converted extra joints
appended by the loop at vrml.py lines 77-84. -/
def readBodyJoints (treejoints : List JointModel) (extras : List ExtraJoint) :
    List JointModel :=
  treejoints ++ extras.map extraJointModel

/-! ### VRMLWriter (vrml.py lines 196-390) -/

/-- `VRMLWriter.findchildren`: the joints whose parent field equals the given
link name, in joint-list order. -/
def findchildren (mdata : BodyModel) (linkname : String) : List JointModel :=
  mdata.joints.filter (fun j => j.parent == linkname)

/-- One step of building the insertion-ordered count dict of
`VRMLWriter.findroot`: `joints[j.parent] = joints[j.parent] + 1` with a
`KeyError` fallback to `joints[j.parent] = 1` (a new key is appended at the
end, Python dicts preserve insertion order). -/
def bump : List (String × Nat) → String → List (String × Nat)
  | [], k => [(k, 1)]
  | (k', v) :: rest, k =>
      if k' = k then (k', v + 1) :: rest else (k', v) :: bump rest k

/-- The first loop of `VRMLWriter.findroot` (vrml.py lines 360-367): count
parent occurrences, skipping joints whose parent is the world sentinel. -/
def buildCounts (js : List JointModel) : List (String × Nat) :=
  js.foldl (fun m j => if j.parent = "world" then m else bump m j.parent) []

/-- The second loop of `VRMLWriter.findroot` (vrml.py lines 368-372):
`del joints[j.child]` for every joint, the `KeyError` for absent keys being
swallowed. -/
def delChildren (js : List JointModel) (m : List (String × Nat)) :
    List (String × Nat) :=
  js.foldl (fun m j => m.filter (fun kv => kv.1 ≠ j.child)) m

/-- Python's stable `sorted(..., key=lambda x: x[1], reverse=True)`, as an
insertion sort that keeps earlier entries in front of later entries with the
same count. -/
def insertDesc (x : String × Nat) : List (String × Nat) → List (String × Nat)
  | [] => [x]
  | y :: ys => if y.2 < x.2 then x :: y :: ys else y :: insertDesc x ys

/-- Stable descending-by-count sort of the count dict's items. -/
def sortDesc (l : List (String × Nat)) : List (String × Nat) :=
  l.foldl (fun acc x => insertDesc x acc) []

/-- `VRMLWriter.findroot` (vrml.py lines 359-373). -/
def findroot (mdata : BodyModel) : List String :=
  (sortDesc (delChildren mdata.joints (buildCounts mdata.joints))).map Prod.fst

/-- Failure modes of the tree conversion: exhausted recursion fuel (modelling
non-termination of the unguarded Python recursion), the `Exception` raised by
`convertjointtype`, the `KeyError` of `self._linkmap[root]`, and the
`IndexError` of `mdata.links[0]`. -/
inductive ConvErr where
  | outOfFuel
  | unsupportedJointType (t : String)
  | keyError (k : String)
  | indexError
deriving DecidableEq, Repr

/-- `VRMLWriter.convertjointtype` (vrml.py lines 321-331). -/
def convertjointtype (t : String) : Except ConvErr String :=
  if t = J_FIXED then .ok "fixed"
  else if t = J_REVOLUTE then .ok "rotate"
  else if t = J_PRISMATIC then .ok "slide"
  else if t = J_SCREW then .ok "rotate"
  else .error (.unsupportedJointType t)

/-- The dict `self._linkmap` built by `VRMLWriter.write` (vrml.py lines
227-228): the last link with a given name wins; looking up an absent name
gives `none` (the Python `KeyError` is handled at each use site). -/
def linkmapOf (mdata : BodyModel) (nm : String) : Option LinkModel :=
  mdata.links.foldl (fun acc l => if l.name == nm then some l else acc) none

/-- One node of the nested dict structure built by `VRMLWriter.convertchildren`
and `VRMLWriter.write`: keys `joint`, `jointtype`, `link` (absent when the
child link is missing, modelled by `none`), `children`. -/
structure NModel where
  joint : JointModel
  jointtype : String
  link : Option LinkModel
  children : List NModel

/-- The loop of `VRMLWriter.convertchildren` over the joints returned by
`findchildren`: for each joint, convert the joint type, recurse into the child
(through the abstracted recursive call `f`), look the child link up in the link
map (a missing link is silently skipped: `except KeyError: pass`), and collect
the nodes in order. -/
def convertEach (f : String → Except ConvErr (List NModel)) (mdata : BodyModel) :
    List JointModel → Except ConvErr (List NModel)
  | [] => .ok []
  | cjoint :: rest => do
      let jt ← convertjointtype cjoint.jointType
      let cs ← f cjoint.child
      let ns ← convertEach f mdata rest
      .ok ({ joint := cjoint, jointtype := jt,
             link := linkmapOf mdata cjoint.child, children := cs } :: ns)

/-- `VRMLWriter.convertchildren` (vrml.py lines 306-319), with explicit fuel:
the Python recursion has no termination guard, so a `.error .outOfFuel` result
for every fuel value means the recursion never returns. -/
def convertchildrenE : Nat → BodyModel → String → Except ConvErr (List NModel)
  | 0, _, _ => .error .outOfFuel
  | fuel + 1, mdata, linkname =>
      convertEach (fun l => convertchildrenE fuel mdata l) mdata
        (findchildren mdata linkname)

/-- The tree-construction prefix of `VRMLWriter.write` (vrml.py lines 226-255):
find the roots, pick the first one (or fall back to the hard-coded name
`'waist'` and the body's first link when there is none), synthesize a fixed
root joint, and attach the recursively converted children.  The file rendering
that follows is outside the computational core. -/
def buildRootNode (fuel : Nat) (mdata : BodyModel) : Except ConvErr NModel :=
  match findroot mdata with
  | root :: _ =>
      match linkmapOf mdata root with
      | none => .error (.keyError root)
      | some rootlink => do
          let cs ← convertchildrenE fuel mdata root
          .ok { joint := { name := root, jointType := "fixed" },
                jointtype := "fixed", link := some rootlink, children := cs }
  | [] =>
      match mdata.links with
      | [] => .error .indexError
      | l0 :: _ => do
          let cs ← convertchildrenE fuel mdata "waist"
          .ok { joint := { name := "waist", jointType := "fixed" },
                jointtype := "fixed", link := some l0, children := cs }

/-! ### ColladaReader (collada.py lines 19-79) -/

/-- One entry of a collada material effect's `params`: either a
`collada.material.Surface` carrying an image path, or some other parameter
kind. -/
inductive CParam where
  | surface (imagePath : String)
  | other
deriving DecidableEq, Repr

/-- A collada material as stored in `self._materials` (keyed by `id`). -/
structure CMaterial where
  id : String
  params : List CParam
deriving DecidableEq, Repr

/-- A collada geometry primitive as handed to `ColladaReader.convertchild`:
vertex/normal/texcoord buffers, their index lists, and the declared material
id. -/
structure CPrimitive where
  vertex : List (List Int) := []
  vertex_index : List (List Nat) := []
  normal : List (List Int) := []
  normal_index : List (List Nat) := []
  texcoordset : List (List (List Int)) := []
  texcoord_indexset : List (List (List Nat)) := []
  material : String := ""
deriving DecidableEq, Repr

/-- The dict `self._materials` built by `ColladaReader.read`
(`self._materials[m.id] = m`): last entry with a given id wins; an absent id
raises the `KeyError` handled in `convertchild`. -/
def materialsMapOf (mats : List CMaterial) (mid : String) : Option CMaterial :=
  mats.foldl (fun acc m => if m.id == mid then some m else acc) none

/-- Models the external `os.path.abspath(os.path.join(basepath, p))` as plain
path concatenation; no claim depends on path normalisation. -/
def osPathJoinAbs (basepath p : String) : String := basepath ++ "/" ++ p

/-- The parameter loop of `ColladaReader.convertchild` (collada.py lines
69-75): every `Surface` parameter overwrites `sm.image` with the resolved
path, run through the asset handler when one is supplied. -/
def resolveImage (basepath : String) (assethandler : Option (String → String))
    (mat : CMaterial) : Option String :=
  mat.params.foldl
    (fun acc pr =>
      match pr with
      | .surface p =>
          match assethandler with
          | some h => some (h (osPathJoinAbs basepath p))
          | none => some (osPathJoinAbs basepath p)
      | .other => acc)
    none

/-- The per-primitive body of `ColladaReader.convertchild`'s geometry branch
(collada.py lines 59-78): copy vertex/normal/texcoord buffers and indices
verbatim, then try to resolve the material's surface image, a missing material
id (`KeyError`) being silently ignored. -/
def convertPrimitive (basepath : String)
    (assethandler : Option (String → String)) (mats : List CMaterial)
    (p : CPrimitive) : MeshData :=
  let base : MeshData :=
    { vertex := p.vertex
      vertex_index := p.vertex_index
      normal := if p.normal.length > 0 then some p.normal else none
      normal_index := if p.normal.length > 0 then some p.normal_index else none
      uvmap := p.texcoordset.head?
      uvmap_index := p.texcoord_indexset.head?
      image := none }
  match materialsMapOf mats p.material with
  | none => base
  | some mat => { base with image := resolveImage basepath assethandler mat }

/-! ### ColladaWriter.convertchild, mesh branch (collada.py lines 123-142) -/

/-- Python-level failures of the writer's mesh branch: the `ValueError` numpy
raises when an array with more than one element is used as a boolean (or when
`vstack` rows have different lengths), and the `AttributeError` of calling
`.reshape` on an absent (`None`) `normal_index`. -/
inductive PyErr where
  | valueError
  | attributeError
deriving DecidableEq, Repr

/-- The truth value of a numpy array (`if m.normal:`): an empty array is
falsy, a one-element array has the truth value of its element, and any larger
array raises `ValueError: The truth value of an array with more than one
element is ambiguous`. -/
def ndarrayTruthy (a : List (List Int)) : Except PyErr Bool :=
  match a.flatten with
  | [] => .ok false
  | [x] => .ok (decide (x ≠ 0))
  | _ :: _ :: _ => .error .valueError

/-- Truthiness of the `normal` field: `None` is falsy, an array is judged by
`ndarrayTruthy`. -/
def optTruthy : Option (List (List Int)) → Except PyErr Bool
  | none => .ok false
  | some a => ndarrayTruthy a

/-- The geometry node emitted by the writer's mesh branch: the flat index
stream handed to `createTriangleSet`, the number of source blocks, and whether
a NORMAL input was registered. -/
structure CGeomNode where
  indices : List Nat
  sourceCount : Nat
  hasNormalInput : Bool
deriving DecidableEq, Repr

/-- `ColladaWriter.convertchild`, `model.MeshData` branch (collada.py lines
123-142).  `indices` starts as the flattened vertex-index row
(`m.vertex_index.reshape(1, size)`).  When `if m.normal:` is truthy the
normal-index row is stacked below it (`numpy.vstack`, which needs equal row
lengths) and the final `indices.T.reshape(1, indices.size)` interleaves the
two rows into (position-index, normal-index) pairs per triangle corner; when
it is falsy the transpose of the single row flattens back to itself. -/
def convertchildMesh (m : MeshData) : Except PyErr CGeomNode := do
  let indices0 := m.vertex_index.flatten
  let b ← optTruthy m.normal
  if b then
    match m.normal_index with
    | none => .error .attributeError
    | some ni =>
        let nrow := ni.flatten
        if nrow.length = indices0.length then
          .ok { indices := (indices0.zip nrow).flatMap (fun pr => [pr.1, pr.2])
                sourceCount := 2
                hasNormalInput := true }
        else
          .error .valueError
  else
    .ok { indices := indices0, sourceCount := 1, hasNormalInput := false }

/-! ### Connectivity of the joint edge graph

`edgeRel b p c` holds when some joint of `b` is the directed edge `p → c`;
`linkedIn b` is undirected reachability over those edges (the connected-
component relation of the joint edge graph); `occursIn b x` says the link name
`x` is an endpoint of some joint edge. -/

def edgeRel (b : BodyModel) (p c : String) : Prop :=
  ∃ j ∈ b.joints, j.parent = p ∧ j.child = c

def linkedIn (b : BodyModel) : String → String → Prop :=
  Relation.ReflTransGen (fun x y => edgeRel b x y ∨ edgeRel b y x)

def occursIn (b : BodyModel) (x : String) : Prop :=
  ∃ j ∈ b.joints, j.parent = x ∨ j.child = x

/-- Climb `n` parent edges up from `x` (taking, like a visited-set-free walk,
the first joint naming `x` as its child each time); used to locate the root of
`x`'s tree when the edges form a forest. -/
def rootOfN : Nat → List JointModel → String → String
  | 0, _, x => x
  | n + 1, E, x =>
      match E.find? (fun j => j.child == x) with
      | some j => rootOfN n E j.parent
      | none => x

/-- The root reached from `x` when every edge strictly increases depth. -/
def rootOf (f : String → Nat) (E : List JointModel) (x : String) : String :=
  rootOfN (f x) E x

/-! ### Concrete example inputs used by the claims -/

/-- Tree joint `R → A` of the cyclic example body. -/
def jRA : JointModel :=
  { name := "jRA", parent := "R", child := "A", jointType := J_REVOLUTE }

/-- Tree joint `A → B`, shared by several example bodies. -/
def jAB : JointModel :=
  { name := "jAB", parent := "A", child := "B", jointType := J_REVOLUTE }

/-- Back edge `B → A` closing a cycle reachable from the root `R`. -/
def jBA : JointModel :=
  { name := "jBA", parent := "B", child := "A", jointType := J_REVOLUTE }

/-- A body whose unique detected root is `R` and whose edges `A → B, B → A`
form a cycle reachable from `R`. -/
def cycBody : BodyModel :=
  { name := "cyc", links := [⟨"R"⟩, ⟨"A"⟩, ⟨"B"⟩], joints := [jRA, jAB, jBA] }

/-- A forest body (`world → A`, `A → B`) on which `findroot` returns no
candidate at all. -/
def cex2Body : BodyModel :=
  { name := "m", links := [⟨"A"⟩, ⟨"B"⟩],
    joints :=
      [{ name := "wj", parent := "world", child := "A", jointType := J_FIXED },
       { name := "j1", parent := "A", child := "B", jointType := J_REVOLUTE }] }

/-- A depth function witnessing that `cex2Body`'s edges form a forest. -/
def cex2Depth : String → Nat :=
  fun s => if s = "world" then 0 else if s = "A" then 1 else 2

/-- A two-component forest body `A → B`, `A → C` with no world edge. -/
def forestBody : BodyModel :=
  { name := "m", links := [⟨"A"⟩, ⟨"B"⟩, ⟨"C"⟩],
    joints :=
      [{ name := "j1", parent := "A", child := "B", jointType := J_REVOLUTE },
       { name := "j2", parent := "A", child := "C", jointType := J_REVOLUTE }] }

/-- A depth function witnessing that `forestBody`'s edges form a forest. -/
def forestDepth : String → Nat := fun s => if s = "A" then 0 else 1

/-- A fully cyclic body (`A → B`, `B → A`): `findroot` yields no candidate. -/
def cex3Body : BodyModel :=
  { name := "m", links := [⟨"A"⟩, ⟨"B"⟩],
    joints :=
      [{ name := "j1", parent := "A", child := "B", jointType := J_REVOLUTE },
       { name := "j2", parent := "B", child := "A", jointType := J_REVOLUTE }] }

/-- The root node `VRMLWriter.write` builds for `cex3Body`. -/
def cex3Node : NModel :=
  { joint := { name := "waist", jointType := "fixed" }, jointtype := "fixed",
    link := some ⟨"A"⟩, children := [] }

/-- The mesh `readLink` builds from 4 vertices, triangles
`[[0,1,2],[0,2,3]]`, 4 per-vertex normals and no normal indices. -/
def cex4Mesh : MeshData :=
  readLinkMesh (List.replicate 12 0) [0, 1, 2, 0, 2, 3] true
    (List.replicate 12 0) []

/-- A body with one joint `A → B` whose child link `B` has no link record. -/
def cex5Body : BodyModel :=
  { name := "m", links := [⟨"A"⟩],
    joints := [{ name := "j", parent := "A", child := "B",
                 jointType := J_REVOLUTE }] }

/-- The node `convertchildren` builds for the dangling joint of `cex5Body`. -/
def cex5Node : NModel :=
  { joint := { name := "j", parent := "A", child := "B",
               jointType := J_REVOLUTE },
    jointtype := "rotate", link := none, children := [] }

/-- The mesh `readLink` builds from a single vertex and the triangle
`[0, 1, 5]` whose indices 1 and 5 are out of range. -/
def cex6Mesh : MeshData := readLinkMesh [0, 0, 0] [0, 1, 5] true [0, 0, 0] []

/-- An extra (closed-loop) joint connecting `B` back to `A`. -/
def cex7Extra : ExtraJoint := { name := "ex", link0 := "B", link1 := "A" }

/-- The body produced by `VRMLReader.read` from tree joint `A → B` plus the
extra joint `cex7Extra`. -/
def cex7Body : BodyModel :=
  { name := "m", links := [⟨"A"⟩, ⟨"B"⟩],
    joints := readBodyJoints [jAB] [cex7Extra] }

/-- A mesh with a two-row (six-element) normal buffer, as any real per-vertex
normal array has. -/
def cex8Mesh : MeshData :=
  { vertex := [[0, 0, 0], [1, 0, 0], [0, 1, 0]], vertex_index := [[0, 1, 2]],
    normal := some [[0, 0, 1], [1, 0, 0]], normal_index := some [[0, 1, 2]] }

/-- A materials table that does not contain the id `missing`. -/
def wMats9 : List CMaterial := [{ id := "matX", params := [.surface "tex.png"] }]

/-- A primitive whose declared material id is absent from `wMats9`. -/
def wPrim9 : CPrimitive :=
  { vertex := [[0, 0, 0], [1, 0, 0], [0, 1, 0]], vertex_index := [[0, 1, 2]],
    material := "missing" }

/-- A mesh whose normal buffer holds two 3-vectors (six elements). -/
def w10Mesh : MeshData :=
  { vertex := [[0, 0, 0], [1, 0, 0], [0, 1, 0]], vertex_index := [[0, 1, 2]],
    normal := some [[0, 0, 1], [0, 1, 0]], normal_index := some [[0, 1, 2]] }

/-! ### Helper lemmas about the Except monad -/

theorem except_ok_bind {ε α β : Type} (a : α) (g : α → Except ε β) :
    (Except.ok a >>= g) = g a := rfl

theorem except_error_bind {ε α β : Type} (e : ε) (g : α → Except ε β) :
    ((Except.error e : Except ε α) >>= g) = Except.error e := rfl

/-! ### Characterisation of findroot -/

theorem keys_bump (m : List (String × Nat)) (k : String) :
    (bump m k).map Prod.fst =
      if k ∈ m.map Prod.fst then m.map Prod.fst else m.map Prod.fst ++ [k] := by
  induction m with
  | nil => simp [bump]
  | cons kv rest ih =>
      obtain ⟨k', v⟩ := kv
      by_cases hk : k' = k
      · subst hk
        simp [bump]
      · simp only [bump, if_neg hk, List.map_cons, ih]
        by_cases hmem : k ∈ rest.map Prod.fst
        · simp [hmem, Ne.symm hk]
        · simp [hmem, Ne.symm hk]

theorem mem_keys_bump (m : List (String × Nat)) (k x : String) :
    x ∈ (bump m k).map Prod.fst ↔ x ∈ m.map Prod.fst ∨ x = k := by
  rw [keys_bump]
  by_cases hmem : k ∈ m.map Prod.fst
  · simp only [if_pos hmem]
    constructor
    · exact Or.inl
    · rintro (h | rfl)
      · exact h
      · exact hmem
  · simp [if_neg hmem]

theorem nodup_keys_bump (m : List (String × Nat)) (k : String)
    (h : (m.map Prod.fst).Nodup) : ((bump m k).map Prod.fst).Nodup := by
  rw [keys_bump]
  by_cases hmem : k ∈ m.map Prod.fst
  · simpa [if_pos hmem] using h
  · rw [if_neg hmem]
    refine List.Nodup.append h (List.nodup_singleton k) ?_
    simpa [List.disjoint_singleton] using hmem

theorem mem_keys_countsFold (js : List JointModel) (m : List (String × Nat))
    (x : String) :
    x ∈ ((js.foldl
        (fun m j => if j.parent = "world" then m else bump m j.parent) m).map
          Prod.fst) ↔
      x ∈ m.map Prod.fst ∨ ∃ j ∈ js, j.parent = x ∧ x ≠ "world" := by
  induction js generalizing m with
  | nil => simp
  | cons j rest ih =>
      simp only [List.foldl_cons, ih]
      by_cases hw : j.parent = "world"
      · simp only [if_pos hw]
        constructor
        · rintro (h | h)
          · exact Or.inl h
          · exact Or.inr (by
              obtain ⟨j', hj', h1, h2⟩ := h
              exact ⟨j', List.mem_cons_of_mem _ hj', h1, h2⟩)
        · rintro (h | ⟨j', hj', h1, h2⟩)
          · exact Or.inl h
          · rcases List.mem_cons.mp hj' with rfl | hmem
            · exact absurd (h1 ▸ hw) h2
            · exact Or.inr ⟨j', hmem, h1, h2⟩
      · simp only [if_neg hw, mem_keys_bump]
        constructor
        · rintro ((h | rfl) | h)
          · exact Or.inl h
          · exact Or.inr ⟨j, List.mem_cons_self _ _, rfl, hw⟩
          · obtain ⟨j', hj', h1, h2⟩ := h
            exact Or.inr ⟨j', List.mem_cons_of_mem _ hj', h1, h2⟩
        · rintro (h | ⟨j', hj', h1, h2⟩)
          · exact Or.inl (Or.inl h)
          · rcases List.mem_cons.mp hj' with rfl | hmem
            · exact Or.inl (Or.inr h1.symm)
            · exact Or.inr ⟨j', hmem, h1, h2⟩

theorem mem_keys_buildCounts (js : List JointModel) (x : String) :
    x ∈ (buildCounts js).map Prod.fst ↔
      ∃ j ∈ js, j.parent = x ∧ x ≠ "world" := by
  simpa [buildCounts] using mem_keys_countsFold js [] x

theorem nodup_keys_buildCounts (js : List JointModel) :
    ((buildCounts js).map Prod.fst).Nodup := by
  have aux : ∀ (l : List JointModel) (m : List (String × Nat)),
      (m.map Prod.fst).Nodup →
      ((l.foldl
          (fun m j => if j.parent = "world" then m else bump m j.parent) m).map
            Prod.fst).Nodup := by
    intro l
    induction l with
    | nil => intro m hm; simpa using hm
    | cons j rest ih =>
        intro m hm
        simp only [List.foldl_cons]
        by_cases hw : j.parent = "world"
        · rw [if_pos hw]; exact ih m hm
        · rw [if_neg hw]; exact ih _ (nodup_keys_bump m j.parent hm)
  exact aux js [] (by simp)

theorem delChildren_sublist (js : List JointModel) (m : List (String × Nat)) :
    (delChildren js m).Sublist m := by
  induction js generalizing m with
  | nil => exact List.Sublist.refl m
  | cons j rest ih =>
      simp only [delChildren, List.foldl_cons]
      exact List.Sublist.trans (ih _) (List.filter_sublist m)

theorem mem_delChildren (js : List JointModel) (m : List (String × Nat))
    (kv : String × Nat) :
    kv ∈ delChildren js m ↔ kv ∈ m ∧ ∀ j ∈ js, j.child ≠ kv.1 := by
  induction js generalizing m with
  | nil => simp [delChildren]
  | cons j rest ih =>
      simp only [delChildren, List.foldl_cons] at *
      rw [ih]
      simp only [List.mem_filter, decide_eq_true_eq]
      constructor
      · rintro ⟨⟨h1, h2⟩, h3⟩
        refine ⟨h1, ?_⟩
        intro j' hj'
        rcases List.mem_cons.mp hj' with rfl | hmem
        · exact fun hc => h2 hc.symm
        · exact h3 j' hmem
      · rintro ⟨h1, h2⟩
        exact ⟨⟨h1, fun hc => h2 j (List.mem_cons_self _ _) hc.symm⟩,
               fun j' hj' => h2 j' (List.mem_cons_of_mem _ hj')⟩

theorem insertDesc_perm (x : String × Nat) (l : List (String × Nat)) :
    (insertDesc x l).Perm (x :: l) := by
  induction l with
  | nil => exact List.Perm.refl _
  | cons y ys ih =>
      simp only [insertDesc]
      by_cases h : y.2 < x.2
      · rw [if_pos h]
      · rw [if_neg h]
        exact List.Perm.trans (List.Perm.cons y ih) (List.Perm.swap x y ys)

theorem sortDesc_perm (l : List (String × Nat)) : (sortDesc l).Perm l := by
  have aux : ∀ (l acc : List (String × Nat)),
      (l.foldl (fun acc x => insertDesc x acc) acc).Perm (acc ++ l) := by
    intro l
    induction l with
    | nil => intro acc; simp
    | cons x xs ih =>
        intro acc
        simp only [List.foldl_cons]
        refine List.Perm.trans (ih _) ?_
        refine List.Perm.trans
          (List.Perm.append_right xs (insertDesc_perm x acc)) ?_
        exact (List.perm_middle).symm
  simpa [sortDesc] using aux l []

theorem mem_findroot_iff (b : BodyModel) (x : String) :
    x ∈ findroot b ↔
      (∃ j ∈ b.joints, j.parent = x ∧ x ≠ "world") ∧
      ∀ j ∈ b.joints, j.child ≠ x := by
  unfold findroot
  rw [List.mem_map]
  constructor
  · rintro ⟨kv, hkv, rfl⟩
    have hkv' : kv ∈ delChildren b.joints (buildCounts b.joints) :=
      (sortDesc_perm _).mem_iff.mp hkv
    rw [mem_delChildren] at hkv'
    obtain ⟨h1, h2⟩ := hkv'
    have : kv.1 ∈ (buildCounts b.joints).map Prod.fst :=
      List.mem_map_of_mem Prod.fst h1
    rw [mem_keys_buildCounts] at this
    exact ⟨this, h2⟩
  · rintro ⟨h1, h2⟩
    rw [← mem_keys_buildCounts] at h1
    obtain ⟨kv, hkv, hfst⟩ := List.mem_map.mp h1
    refine ⟨kv, ?_, hfst⟩
    refine (sortDesc_perm _).mem_iff.mpr ?_
    rw [mem_delChildren]
    exact ⟨hkv, by simpa [hfst] using h2⟩

theorem nodup_findroot (b : BodyModel) : (findroot b).Nodup := by
  unfold findroot
  have h1 : ((delChildren b.joints (buildCounts b.joints)).map Prod.fst).Nodup :=
    List.Nodup.sublist
      (List.Sublist.map Prod.fst (delChildren_sublist _ _))
      (nodup_keys_buildCounts b.joints)
  exact ((sortDesc_perm _).map Prod.fst).nodup_iff.mpr h1

theorem rootOfN_of_find_none {E : List JointModel} {x : String}
    (h : E.find? (fun j => j.child == x) = none) :
    ∀ n, rootOfN n E x = x := by
  intro n
  cases n with
  | zero => rfl
  | succ n => simp [rootOfN, h]

theorem rootOfN_not_child {E : List JointModel} {x : String}
    (h : ∀ j ∈ E, j.child ≠ x) : ∀ n, rootOfN n E x = x := by
  apply rootOfN_of_find_none
  rw [List.find?_eq_none]
  intro j hj
  simpa using h j hj

section Forest

variable {E : List JointModel} {f : String → Nat}

theorem rootOfN_stable (hdepth : ∀ j ∈ E, f j.parent < f j.child) :
    ∀ (d : Nat) (x : String) (n m : Nat),
      f x ≤ d → f x ≤ n → f x ≤ m → rootOfN n E x = rootOfN m E x := by
  intro d
  induction d with
  | zero =>
      intro x n m hd hn hm
      cases hfind : E.find? (fun j => j.child == x) with
      | none => rw [rootOfN_of_find_none hfind, rootOfN_of_find_none hfind]
      | some j =>
          have hj : j ∈ E := List.mem_of_find?_eq_some hfind
          have hx : j.child = x := by
            simpa using List.find?_some hfind
          have h1 := hdepth j hj
          have h2 : f j.child = f x := by rw [hx]
          omega
  | succ d ih =>
      intro x n m hd hn hm
      cases hfind : E.find? (fun j => j.child == x) with
      | none => rw [rootOfN_of_find_none hfind, rootOfN_of_find_none hfind]
      | some j =>
          have hj : j ∈ E := List.mem_of_find?_eq_some hfind
          have hx : j.child = x := by
            simpa using List.find?_some hfind
          have hlt : f j.parent < f x := hx ▸ hdepth j hj
          obtain ⟨n', rfl⟩ : ∃ n', n = n' + 1 := by
            cases n with
            | zero => omega
            | succ n' => exact ⟨n', rfl⟩
          obtain ⟨m', rfl⟩ : ∃ m', m = m' + 1 := by
            cases m with
            | zero => omega
            | succ m' => exact ⟨m', rfl⟩
          simp only [rootOfN, hfind]
          exact ih j.parent n' m' (by omega) (by omega) (by omega)

theorem rootOf_not_child (hdepth : ∀ j ∈ E, f j.parent < f j.child) :
    ∀ (d : Nat) (x : String), f x ≤ d →
      ∀ j' ∈ E, j'.child ≠ rootOf f E x := by
  intro d
  induction d with
  | zero =>
      intro x hd j' hj'
      cases hfind : E.find? (fun j => j.child == x) with
      | none =>
          rw [rootOf, rootOfN_of_find_none hfind]
          intro hc
          have : (fun j => j.child == x) j' = true := by simp [hc]
          have := List.find?_eq_none.mp hfind j' hj'
          simp [hc] at this
      | some j =>
          have hj : j ∈ E := List.mem_of_find?_eq_some hfind
          have hx : j.child = x := by simpa using List.find?_some hfind
          have h1 := hdepth j hj
          have h2 : f j.child = f x := by rw [hx]
          omega
  | succ d ih =>
      intro x hd j' hj'
      cases hfind : E.find? (fun j => j.child == x) with
      | none =>
          rw [rootOf, rootOfN_of_find_none hfind]
          intro hc
          have := List.find?_eq_none.mp hfind j' hj'
          simp [hc] at this
      | some j =>
          have hj : j ∈ E := List.mem_of_find?_eq_some hfind
          have hx : j.child = x := by simpa using List.find?_some hfind
          have hlt : f j.parent < f x := hx ▸ hdepth j hj
          obtain ⟨k, hk⟩ : ∃ k, f x = k + 1 := by
            cases hfx : f x with
            | zero => omega
            | succ k => exact ⟨k, rfl⟩
          have hstep : rootOf f E x = rootOf f E j.parent := by
            rw [rootOf, rootOf, hk]
            simp only [rootOfN, hfind]
            exact rootOfN_stable hdepth d j.parent k (f j.parent)
              (by omega) (by omega) (le_refl _)
          rw [hstep]
          exact ih j.parent (by omega) j' hj'

end Forest

section ForestBody

variable {b : BodyModel} {f : String → Nat}

theorem rootOf_linked (hdepth : ∀ j ∈ b.joints, f j.parent < f j.child) :
    ∀ (d : Nat) (x : String), f x ≤ d →
      linkedIn b x (rootOf f b.joints x) := by
  intro d
  induction d with
  | zero =>
      intro x hd
      cases hfind : b.joints.find? (fun j => j.child == x) with
      | none =>
          rw [rootOf, rootOfN_of_find_none hfind]
          exact Relation.ReflTransGen.refl
      | some j =>
          have hj : j ∈ b.joints := List.mem_of_find?_eq_some hfind
          have hx : j.child = x := by simpa using List.find?_some hfind
          have h1 := hdepth j hj
          have h2 : f j.child = f x := by rw [hx]
          omega
  | succ d ih =>
      intro x hd
      cases hfind : b.joints.find? (fun j => j.child == x) with
      | none =>
          rw [rootOf, rootOfN_of_find_none hfind]
          exact Relation.ReflTransGen.refl
      | some j =>
          have hj : j ∈ b.joints := List.mem_of_find?_eq_some hfind
          have hx : j.child = x := by simpa using List.find?_some hfind
          have hlt : f j.parent < f x := by
            have h1 := hdepth j hj
            have h2 : f j.child = f x := by rw [hx]
            omega
          obtain ⟨k, hk⟩ : ∃ k, f x = k + 1 := by
            cases hfx : f x with
            | zero => omega
            | succ k => exact ⟨k, rfl⟩
          have hstep : rootOf f b.joints x = rootOf f b.joints j.parent := by
            rw [rootOf, rootOf, hk]
            simp only [rootOfN, hfind]
            exact rootOfN_stable hdepth d j.parent k (f j.parent)
              (by omega) (by omega) (le_refl _)
          rw [hstep]
          refine Relation.ReflTransGen.trans
            (Relation.ReflTransGen.single (Or.inr ⟨j, hj, rfl, hx⟩)) ?_
          exact ih j.parent (by omega)

theorem rootOf_parent_edge (hdepth : ∀ j ∈ b.joints, f j.parent < f j.child) :
    ∀ (d : Nat) (x : String), f x ≤ d → occursIn b x →
      ∃ j ∈ b.joints, j.parent = rootOf f b.joints x := by
  intro d
  induction d with
  | zero =>
      intro x hd hocc
      cases hfind : b.joints.find? (fun j => j.child == x) with
      | none =>
          rw [rootOf, rootOfN_of_find_none hfind]
          obtain ⟨j, hj, hpc⟩ := hocc
          rcases hpc with hp | hc
          · exact ⟨j, hj, hp⟩
          · have := List.find?_eq_none.mp hfind j hj
            simp [hc] at this
      | some j =>
          have hj : j ∈ b.joints := List.mem_of_find?_eq_some hfind
          have hx : j.child = x := by simpa using List.find?_some hfind
          have h1 := hdepth j hj
          have h2 : f j.child = f x := by rw [hx]
          omega
  | succ d ih =>
      intro x hd hocc
      cases hfind : b.joints.find? (fun j => j.child == x) with
      | none =>
          rw [rootOf, rootOfN_of_find_none hfind]
          obtain ⟨j, hj, hpc⟩ := hocc
          rcases hpc with hp | hc
          · exact ⟨j, hj, hp⟩
          · have := List.find?_eq_none.mp hfind j hj
            simp [hc] at this
      | some j =>
          have hj : j ∈ b.joints := List.mem_of_find?_eq_some hfind
          have hx : j.child = x := by simpa using List.find?_some hfind
          have hlt : f j.parent < f x := by
            have h1 := hdepth j hj
            have h2 : f j.child = f x := by rw [hx]
            omega
          obtain ⟨k, hk⟩ : ∃ k, f x = k + 1 := by
            cases hfx : f x with
            | zero => omega
            | succ k => exact ⟨k, rfl⟩
          have hstep : rootOf f b.joints x = rootOf f b.joints j.parent := by
            rw [rootOf, rootOf, hk]
            simp only [rootOfN, hfind]
            exact rootOfN_stable hdepth d j.parent k (f j.parent)
              (by omega) (by omega) (le_refl _)
          rw [hstep]
          exact ih j.parent (by omega) ⟨j, hj, Or.inl rfl⟩

theorem rootOf_edge (hdepth : ∀ j ∈ b.joints, f j.parent < f j.child)
    (hnd : (b.joints.map JointModel.child).Nodup) {p c : String}
    (h : edgeRel b p c) :
    rootOf f b.joints c = rootOf f b.joints p := by
  obtain ⟨j0, hj0, hp0, hc0⟩ := h
  have hsome : (b.joints.find? (fun j => j.child == c)).isSome := by
    rw [List.find?_isSome]
    exact ⟨j0, hj0, by simp [hc0]⟩
  obtain ⟨j', hfind⟩ := Option.isSome_iff_exists.mp hsome
  have hj' : j' ∈ b.joints := List.mem_of_find?_eq_some hfind
  have hc' : j'.child = c := by simpa using List.find?_some hfind
  have hjj : j' = j0 :=
    List.inj_on_of_nodup_map hnd hj' hj0 (hc'.trans hc0.symm)
  have hlt : f p < f c := by
    have h1 := hdepth j0 hj0
    rw [hp0, hc0] at h1
    exact h1
  obtain ⟨k, hk⟩ : ∃ k, f c = k + 1 := by
    cases hfc : f c with
    | zero => omega
    | succ k => exact ⟨k, rfl⟩
  rw [rootOf, rootOf, hk]
  simp only [rootOfN, hfind]
  rw [hjj, hp0]
  exact rootOfN_stable hdepth k p k (f p) (by omega) (by omega) (le_refl _)

theorem rootOf_linked_eq (hdepth : ∀ j ∈ b.joints, f j.parent < f j.child)
    (hnd : (b.joints.map JointModel.child).Nodup) {x y : String}
    (h : linkedIn b x y) :
    rootOf f b.joints x = rootOf f b.joints y := by
  induction h with
  | refl => rfl
  | tail _ hstep ih =>
      rcases hstep with he | he
      · exact ih.trans (rootOf_edge hdepth hnd he).symm
      · exact ih.trans (rootOf_edge hdepth hnd he)

theorem rootOf_of_cand {r : String} (h : ∀ j ∈ b.joints, j.child ≠ r) :
    rootOf f b.joints r = r :=
  rootOfN_not_child h (f r)

end ForestBody

/-! ### Helper lemmas about the tree conversion -/

theorem convertEach_cons_error {g : String → Except ConvErr (List NModel)}
    {mdata : BodyModel} {cjoint : JointModel} {rest : List JointModel}
    {jt : String} {e : ConvErr}
    (h1 : convertjointtype cjoint.jointType = .ok jt)
    (h2 : g cjoint.child = .error e) :
    convertEach g mdata (cjoint :: rest) = .error e := by
  simp [convertEach, h1, h2, except_ok_bind, except_error_bind]

theorem cyc_loop_diverges : ∀ n,
    convertchildrenE n cycBody "A" = .error .outOfFuel ∧
    convertchildrenE n cycBody "B" = .error .outOfFuel := by
  intro n
  induction n with
  | zero => exact ⟨rfl, rfl⟩
  | succ n ih =>
      obtain ⟨hA, hB⟩ := ih
      constructor
      · show convertchildrenE (n + 1) cycBody "A" = _
        rw [convertchildrenE, show findchildren cycBody "A" = [jAB] from rfl]
        exact convertEach_cons_error rfl hB
      · show convertchildrenE (n + 1) cycBody "B" = _
        rw [convertchildrenE, show findchildren cycBody "B" = [jBA] from rfl]
        exact convertEach_cons_error rfl hA

theorem convertEach_ok_link {g : String → Except ConvErr (List NModel)}
    {mdata : BodyModel} :
    ∀ {js : List JointModel} {res : List NModel},
      convertEach g mdata js = .ok res →
      ∀ nm ∈ res, nm.link = linkmapOf mdata nm.joint.child := by
  intro js
  induction js with
  | nil =>
      intro res h nm hnm
      simp [convertEach] at h
      subst h
      simp at hnm
  | cons cjoint rest ih =>
      intro res h nm hnm
      rw [convertEach] at h
      cases hjt : convertjointtype cjoint.jointType with
      | error e => rw [hjt, except_error_bind] at h; exact absurd h (by simp)
      | ok jt =>
          rw [hjt, except_ok_bind] at h
          cases hcs : g cjoint.child with
          | error e =>
              rw [hcs, except_error_bind] at h
              exact absurd h (by simp)
          | ok cs =>
              rw [hcs, except_ok_bind] at h
              cases hns : convertEach g mdata rest with
              | error e =>
                  rw [hns, except_error_bind] at h
                  exact absurd h (by simp)
              | ok ns =>
                  rw [hns, except_ok_bind] at h
                  injection h with hres
                  subst hres
                  rcases List.mem_cons.mp hnm with rfl | hmem
                  · rfl
                  · exact ih hns nm hmem

theorem linkmapOf_eq_none {mdata : BodyModel} {c : String}
    (h : ∀ l ∈ mdata.links, l.name ≠ c) : linkmapOf mdata c = none := by
  have aux : ∀ (ls : List LinkModel) (acc : Option LinkModel),
      (∀ l ∈ ls, l.name ≠ c) →
      (ls.foldl (fun acc l => if l.name == c then some l else acc) acc) =
        acc := by
    intro ls
    induction ls with
    | nil => intro acc _; rfl
    | cons l rest ih =>
        intro acc hl
        simp only [List.foldl_cons]
        rw [show (if l.name == c then some l else acc) = acc by
          simp [hl l (List.mem_cons_self _ _)]]
        exact ih acc (fun l' hl' => hl l' (List.mem_cons_of_mem _ hl'))
  exact aux mdata.links none h

theorem materialsMapOf_eq_none {mats : List CMaterial} {mid : String}
    (h : ∀ m ∈ mats, m.id ≠ mid) : materialsMapOf mats mid = none := by
  have aux : ∀ (ms : List CMaterial) (acc : Option CMaterial),
      (∀ m ∈ ms, m.id ≠ mid) →
      (ms.foldl (fun acc m => if m.id == mid then some m else acc) acc) =
        acc := by
    intro ms
    induction ms with
    | nil => intro acc _; rfl
    | cons m rest ih =>
        intro acc hm
        simp only [List.foldl_cons]
        rw [show (if m.id == mid then some m else acc) = acc by
          simp [hm m (List.mem_cons_self _ _)]]
        exact ih acc (fun m' hm' => hm m' (List.mem_cons_of_mem _ hm'))
  exact aux mats none h

/-! ### Helper lemmas about reshape3 -/

theorem reshape3_triple (l : List Nat) :
    reshape3 (l.flatMap fun i => [i, i, i]) = l.map fun i => [i, i, i] := by
  induction l with
  | nil => rfl
  | cons i rest ih =>
      rw [List.flatMap_cons]
      show reshape3 (i :: i :: i :: rest.flatMap fun i => [i, i, i]) = _
      rw [reshape3, ih, List.map_cons]

theorem reshape3_flatten {α : Type} :
    ∀ (l : List α), l.length % 3 = 0 → (reshape3 l).flatten = l
  | [], _ => rfl
  | [a], h => by simp at h
  | [a, b], h => by simp at h
  | a :: b :: c :: rest, h => by
      have h' : rest.length % 3 = 0 := by
        simp only [List.length_cons] at h
        omega
      simp [reshape3, reshape3_flatten rest h']

/-! ### The claims -/

/-- Claim C1: on `cycBody`, whose joints are `R → A, A → B, B → A`, root
detection picks `R`, and the recursive tree build started at `R` exhausts
every amount of fuel — the unguarded Python recursion never returns (and in
particular never raises a cycle-detected error, which does not exist in the
code). -/
theorem C1_cycle_reachable_from_root_diverges :
    findroot cycBody = ["R"] ∧
    ∀ fuel, convertchildrenE fuel cycBody "R" = .error .outOfFuel := by
  refine ⟨by decide, ?_⟩
  intro fuel
  cases fuel with
  | zero => rfl
  | succ n =>
      rw [convertchildrenE, show findchildren cycBody "R" = [jRA] from rfl]
      exact convertEach_cons_error rfl (cyc_loop_diverges n).1

/-- Claim C2, counterexample: `cex2Body`'s joints `world → A, A → B` form a
forest (children are distinct, `cex2Depth` increases along every edge) and
`A` occurs in an edge, yet `findroot` returns no candidate at all, so the
connected component of `A` has zero root candidates rather than exactly
one. -/
theorem C2_counterexample :
    (cex2Body.joints.map JointModel.child).Nodup ∧
    (∀ j ∈ cex2Body.joints, cex2Depth j.parent < cex2Depth j.child) ∧
    occursIn cex2Body "A" ∧
    findroot cex2Body = [] ∧
    ¬ ∃ r, r ∈ findroot cex2Body ∧ linkedIn cex2Body "A" r := by
  refine ⟨by decide, by decide, by unfold occursIn; decide, by decide, ?_⟩
  rintro ⟨r, hr, -⟩
  rw [show findroot cex2Body = [] by decide] at hr
  exact absurd hr (List.not_mem_nil r)

/-- Claim C2, amended: for every Body whose joint edges form a forest (each
link is the child of at most one joint and some depth function increases
along every edge) and contain no world-sentinel edge, `findroot` returns a
duplicate-free candidate list, none of its entries is the child of any joint,
and every link occurring in an edge is connected to exactly one returned
candidate — one root candidate per connected component. -/
theorem C2_findroot_forest_amended (b : BodyModel) (f : String → Nat)
    (hnw : ∀ j ∈ b.joints, j.parent ≠ "world")
    (hnd : (b.joints.map JointModel.child).Nodup)
    (hdepth : ∀ j ∈ b.joints, f j.parent < f j.child) :
    (∀ r ∈ findroot b, ∀ j ∈ b.joints, j.child ≠ r) ∧
    (findroot b).Nodup ∧
    ∀ x, occursIn b x → ∃! r, r ∈ findroot b ∧ linkedIn b x r := by
  refine ⟨?_, nodup_findroot b, ?_⟩
  · intro r hr
    exact ((mem_findroot_iff b r).mp hr).2
  · intro x hocc
    refine ⟨rootOf f b.joints x, ⟨?_, ?_⟩, ?_⟩
    · rw [mem_findroot_iff]
      constructor
      · obtain ⟨j, hj, hp⟩ := rootOf_parent_edge hdepth (f x) x (le_refl _) hocc
        exact ⟨j, hj, hp, by rw [← hp]; exact hnw j hj⟩
      · exact fun j hj => rootOf_not_child hdepth (f x) x (le_refl _) j hj
    · exact rootOf_linked hdepth (f x) x (le_refl _)
    · rintro r' ⟨hr'mem, hr'link⟩
      have hcand : ∀ j ∈ b.joints, j.child ≠ r' :=
        ((mem_findroot_iff b r').mp hr'mem).2
      have h1 : rootOf f b.joints x = rootOf f b.joints r' :=
        rootOf_linked_eq hdepth hnd hr'link
      rw [rootOf_of_cand hcand] at h1
      exact h1.symm

/-- Claim C2, witness: the amended theorem applied to the concrete forest
body `A → B, A → C` with its explicit depth function. -/
theorem C2_findroot_forest_witness :
    (∀ r ∈ findroot forestBody, ∀ j ∈ forestBody.joints, j.child ≠ r) ∧
    (findroot forestBody).Nodup ∧
    ∀ x, occursIn forestBody x →
      ∃! r, r ∈ findroot forestBody ∧ linkedIn forestBody x r :=
  C2_findroot_forest_amended forestBody forestDepth (by decide) (by decide)
    (by decide)

/-- Claim C3, counterexample: on `cex3Body` (joints `A → B, B → A`, zero root
candidates) the emitted root node carries the hard-coded name `waist`, not a
caller-supplied default such as `base` (no such parameter exists), and its
link is the body's first link `A`. -/
theorem C3_counterexample :
    findroot cex3Body = [] ∧
    buildRootNode 5 cex3Body = .ok cex3Node ∧
    cex3Node.joint.name = "waist" ∧
    cex3Node.joint.name ≠ "base" ∧
    cex3Node.link.map LinkModel.name = some "A" ∧
    cex3Node.link.map LinkModel.name ≠ some "base" :=
  ⟨by decide, rfl, rfl, by decide, rfl, by decide⟩

/-- Claim C3, amended: whenever root detection yields zero candidates and the
tree construction returns, the root node's synthetic joint carries the
hard-coded name `waist` and the fixed joint type, and the root node's link is
the body's first link. -/
theorem C3_root_fallback_amended (fuel : Nat) (mdata : BodyModel) (nm : NModel)
    (hroots : findroot mdata = []) (h : buildRootNode fuel mdata = .ok nm) :
    nm.joint.name = "waist" ∧ nm.joint.jointType = "fixed" ∧
    nm.jointtype = "fixed" ∧ nm.link = mdata.links.head? := by
  cases hl : mdata.links with
  | nil =>
      simp only [buildRootNode, hroots, hl] at h
      exact absurd h (by simp)
  | cons l0 rest =>
      cases hcs : convertchildrenE fuel mdata "waist" with
      | error e =>
          simp only [buildRootNode, hroots, hl, hcs, except_error_bind] at h
          exact absurd h (by simp)
      | ok cs =>
          simp only [buildRootNode, hroots, hl, hcs, except_ok_bind] at h
          injection h with hres
          subst hres
          simp [hl]

/-- Claim C3, witness: the amended theorem applied to `cex3Body`. -/
theorem C3_root_fallback_witness :
    cex3Node.joint.name = "waist" ∧ cex3Node.joint.jointType = "fixed" ∧
    cex3Node.jointtype = "fixed" ∧ cex3Node.link = cex3Body.links.head? :=
  C3_root_fallback_amended 5 cex3Body cex3Node (by decide) rfl

/-- Claim C4, counterexample: with 4 vertices, 4 per-vertex normals, no
normal indices and triangles `[[0,1,2],[0,2,3]]`, the reader synthesizes the
normal index list `[[0,0,0],[1,1,1],[2,2,2],[3,3,3]]`, which differs from the
triangle vertex index list. -/
theorem C4_counterexample :
    cex4Mesh.vertex_index = [[0, 1, 2], [0, 2, 3]] ∧
    cex4Mesh.normal_index = some [[0, 0, 0], [1, 1, 1], [2, 2, 2], [3, 3, 3]] ∧
    cex4Mesh.normal_index ≠ some cex4Mesh.vertex_index := by
  decide

/-- Claim C4, amended: when per-vertex normals are supplied without explicit
indices, the synthesized normal index list repeats each normal's own position
index three times — `[[i,i,i]]` for each of the `n` normals — independently
of the triangle vertex index list. -/
theorem C4_implicit_normal_synthesis_amended (vertices : List Int)
    (triangles : List Nat) (normals : List Int) (n : Nat)
    (h : normals.length = 3 * n) :
    (readLinkMesh vertices triangles true normals []).normal_index =
      some ((List.range n).map fun i => [i, i, i]) := by
  simp [readLinkMesh, synthPerVertexIdx, h, Nat.mul_div_cancel_left,
    reshape3_triple]

/-- Claim C4, witness: the amended theorem applied to the 4-vertex,
4-normal, two-triangle input. -/
theorem C4_implicit_normal_synthesis_witness :
    (readLinkMesh (List.replicate 12 0) [0, 1, 2, 0, 2, 3] true
        (List.replicate 12 0) []).normal_index =
      some ((List.range 4).map fun i => [i, i, i]) :=
  C4_implicit_normal_synthesis_amended (List.replicate 12 0)
    [0, 1, 2, 0, 2, 3] (List.replicate 12 0) 4 (by decide)

/-- Claim C5, counterexample: converting `cex5Body`, whose only joint names
the absent child link `B`, succeeds — returning a node without a link record
— instead of surfacing a structural error (none exists in the code). -/
theorem C5_counterexample :
    convertchildrenE 2 cex5Body "A" = .ok [cex5Node] ∧ cex5Node.link = none :=
  ⟨rfl, rfl⟩

/-- Claim C5, amended: whenever the tree conversion returns, every emitted
node whose joint's child name matches no link of the body carries no link
record (`except KeyError: pass`), and conversion continues without any
error. -/
theorem C5_missing_child_link_amended (fuel : Nat) (mdata : BodyModel)
    (linkname : String) (res : List NModel)
    (h : convertchildrenE fuel mdata linkname = .ok res) :
    ∀ nm ∈ res, (∀ l ∈ mdata.links, l.name ≠ nm.joint.child) →
      nm.link = none := by
  intro nm hnm habs
  cases fuel with
  | zero => exact absurd h (by simp [convertchildrenE])
  | succ n =>
      rw [convertchildrenE] at h
      rw [convertEach_ok_link h nm hnm]
      exact linkmapOf_eq_none habs

/-- Claim C5, witness: the amended theorem applied to `cex5Body`. -/
theorem C5_missing_child_link_witness : cex5Node.link = none :=
  C5_missing_child_link_amended 2 cex5Body "A" [cex5Node] rfl cex5Node
    (List.mem_singleton_self _) (by decide)

/-- Claim C6, counterexample: `cex6Mesh` is built from one vertex and the
triangle `[0, 1, 5]`: construction succeeds and stores the out-of-range
indices verbatim — no index-bounds error exists in the code. -/
theorem C6_counterexample :
    cex6Mesh.vertex = [[0, 0, 0]] ∧
    cex6Mesh.vertex_index = [[0, 1, 5]] ∧
    ¬ ∀ row ∈ cex6Mesh.vertex_index, ∀ i ∈ row, i < cex6Mesh.vertex.length := by
  decide

/-- Claim C6, amended: mesh construction performs no index validation at all —
for every input whose flat triangle list has length divisible by 3, the stored
triangle rows flatten back to exactly the input indices, in or out of
range. -/
theorem C6_no_bounds_check_amended (vertices : List Int) (triangles : List Nat)
    (npv : Bool) (normals : List Int) (normalIndices : List Nat)
    (h : triangles.length % 3 = 0) :
    ((readLinkMesh vertices triangles npv normals
        normalIndices).vertex_index).flatten = triangles := by
  simp only [readLinkMesh]
  exact reshape3_flatten triangles h

/-- Claim C6, witness: the amended theorem applied to the out-of-range
triangle `[0, 1, 5]` over a single vertex. -/
theorem C6_no_bounds_check_witness :
    ((readLinkMesh [0, 0, 0] [0, 1, 5] true [0, 0, 0] []).vertex_index).flatten
      = [0, 1, 5] :=
  C6_no_bounds_check_amended [0, 0, 0] [0, 1, 5] true [0, 0, 0] [] (by decide)

/-- Claim C7, counterexample: reading a body with tree joint `A → B` and the
extra closed-loop joint `(B, A)` appends the extra joint to the same
`joints` list, `findchildren` returns it as an ordinary tree edge of `B`, and
the recursive tree build does traverse it — failing on its unset joint type
rather than skipping it. -/
theorem C7_counterexample :
    cex7Body.joints = [jAB, extraJointModel cex7Extra] ∧
    extraJointModel cex7Extra ∈ findchildren cex7Body "B" ∧
    convertchildrenE 2 cex7Body "B" = .error (.unsupportedJointType "") := by
  refine ⟨by decide, by decide, rfl⟩

/-- Claim C7, amended: the reader keeps no separate list — every extra
closed-loop joint is appended to the Body's single joint list, and
`findchildren` (the function feeding the tree-build recursion) returns it as
a tree edge of its first link. -/
theorem C7_extra_joints_merged_amended (treejoints : List JointModel)
    (extras : List ExtraJoint) (e : ExtraJoint) (he : e ∈ extras)
    (bm : BodyModel) (hbm : bm.joints = readBodyJoints treejoints extras) :
    extraJointModel e ∈ bm.joints ∧
    extraJointModel e ∈ findchildren bm e.link0 := by
  have hmem : extraJointModel e ∈ bm.joints := by
    rw [hbm, readBodyJoints]
    exact List.mem_append_right _ (List.mem_map_of_mem extraJointModel he)
  refine ⟨hmem, ?_⟩
  rw [findchildren, List.mem_filter]
  exact ⟨hmem, by simp [extraJointModel]⟩

/-- Claim C7, witness: the amended theorem applied to `cex7Body`. -/
theorem C7_extra_joints_merged_witness :
    extraJointModel cex7Extra ∈ cex7Body.joints ∧
    extraJointModel cex7Extra ∈ findchildren cex7Body cex7Extra.link0 :=
  C7_extra_joints_merged_amended [jAB] [cex7Extra] cex7Extra
    (List.mem_singleton_self _) cex7Body rfl

/-- Claim C8: writing `cex8Mesh`, whose normal buffer holds six elements,
fails with the `ValueError` numpy raises for `if m.normal:` on a
multi-element array — the combined (position, normal) index stream is never
emitted for a real normal buffer. -/
theorem C8_normal_merge_write_raises_valueerror :
    cex8Mesh.normal = some [[0, 0, 1], [1, 0, 0]] ∧
    convertchildMesh cex8Mesh = .error .valueError :=
  ⟨rfl, rfl⟩

/-- Claim C9: converting a primitive whose declared material id is absent
from the materials table succeeds with the image field left unset — the
`KeyError` is swallowed and no error is raised. -/
theorem C9_material_miss_tolerated (basepath : String)
    (ah : Option (String → String)) (mats : List CMaterial) (p : CPrimitive)
    (h : ∀ m ∈ mats, m.id ≠ p.material) :
    (convertPrimitive basepath ah mats p).image = none := by
  simp only [convertPrimitive, materialsMapOf_eq_none h]

/-- Claim C9, witness: the theorem applied to a primitive declaring the
missing material id `missing` against the table `wMats9`. -/
theorem C9_material_miss_witness :
    (convertPrimitive "/base" none wMats9 wPrim9).image = none :=
  C9_material_miss_tolerated "/base" none wMats9 wPrim9 (by decide)

/-- Claim C10: writing any MeshData whose normal array holds at least two
elements fails with `ValueError`: `if m.normal:` asks numpy for the truth
value of a multi-element array, so the normal-merging path is reachable only
for absent or single-element normal buffers. -/
theorem C10_normal_truthiness_valueerror (m : MeshData)
    (arr : List (List Int)) (h1 : m.normal = some arr)
    (h2 : 2 ≤ arr.flatten.length) :
    convertchildMesh m = .error .valueError := by
  obtain ⟨x, y, t, hxy⟩ : ∃ x y t, arr.flatten = x :: y :: t := by
    cases harr : arr.flatten with
    | nil => rw [harr] at h2; simp at h2
    | cons x rest =>
        cases rest with
        | nil => rw [harr] at h2; simp at h2
        | cons y t => exact ⟨x, y, t, rfl⟩
  simp only [convertchildMesh, optTruthy, h1, ndarrayTruthy, hxy,
    except_error_bind]

/-- Claim C10, witness: the theorem applied to `w10Mesh`, whose normal array
holds six elements. -/
theorem C10_normal_truthiness_witness :
    convertchildMesh w10Mesh = .error .valueError :=
  C10_normal_truthiness_valueerror w10Mesh [[0, 0, 1], [0, 1, 0]] rfl
    (by decide)

end Simtrans
